import Mathlib

/-!
Shallow embedding of `src/delta_exc_data.py` (Delta Exchange OHLC data
fetcher) and verification of its specified properties.

Modelling conventions:
* A JSON dictionary is an association list `Dict := List (String × JVal)`,
  where `JVal.num v` stands for any JSON value that `pd.to_numeric` coerces
  to the number `v` (plain numbers and numeric strings), `JVal.str` for a
  non-numeric string, and `JVal.nonnum` for any other value that coerces
  to NaN.
* Machine time is `Int` (unix seconds).  The `datetime` objects built by
  `get_user_input_date_range` all have whole seconds and `microsecond = 0`,
  so second granularity is exact.
* A candle dictionary is modelled by `RawCandle`; its `time` key may be
  absent (`time? = none`), matching a dict access `candle['time']` that
  would raise `KeyError`, and a `NaN`/`NaT` cell after
  `pd.to_datetime(df['time'])`.  The OHLCV payload fields are carried as
  plain integers (their values never influence control flow).
* One HTTP request is a value of `ApiResponse` / `FetchOutcome`: the
  network layer is an external collaborator, so each call's outcome is a
  parameter of the embedded function.  `netErr` covers
  `requests.exceptions.RequestException` (connection failure, timeout,
  `raise_for_status` on a non-2xx status), `exn` covers any other
  exception (for example a JSON parse failure), and `ok body` is an
  HTTP 200 response with parsed JSON `body`.
* The `while` loop of `get_ohlc_data_paginated` is embedded as the
  fuel-indexed function `runLoop`; `none` means the fuel was exhausted
  before the loop finished, so termination of the Python loop is the
  existence of sufficient fuel.
-/

/-- A JSON scalar as classified by `pd.to_numeric(…, errors='coerce')`:
`num v` coerces to the number `v`, the others coerce to NaN. -/
inductive JVal where
  | num (v : Int)
  | str (s : String)
  | nonnum
deriving DecidableEq, Repr

/-- A JSON dictionary (one product, ticker, …): an association list. -/
abbrev Dict := List (String × JVal)

/-- Association-list lookup, first match wins (Python dict access /
pandas column cell). -/
def alistGet {β : Type} (k : String) : List (String × β) → Option β
  | [] => none
  | p :: r => if k = p.1 then some p.2 else alistGet k r

/-- The value of a JSON body's `result` key, when present. -/
inductive JsonVal where
  | arr (xs : List Dict)
  | other
deriving DecidableEq, Repr

/-- A parsed JSON response body; `result?` is the `result` key. -/
structure JsonBody where
  result? : Option JsonVal
deriving DecidableEq, Repr

/-- Outcome of one `requests.get` call for the products / tickers
endpoints. -/
inductive ApiResponse where
  | netErr
  | exn
  | ok (body : JsonBody)
deriving DecidableEq, Repr

/-- `get_all_products` (src lines 16-46): return the `result` list of a
successful response, and `[]` on network error, non-2xx status, any other
exception, or a missing / non-list `result` key. -/
def get_all_products : ApiResponse → List Dict
  | ApiResponse.netErr => []
  | ApiResponse.exn => []
  | ApiResponse.ok body =>
    match body.result? with
    | some (JsonVal.arr xs) => xs
    | _ => []

/-- `get_all_tickers` (src lines 48-79): identical envelope handling to
`get_all_products`. -/
def get_all_tickers : ApiResponse → List Dict
  | ApiResponse.netErr => []
  | ApiResponse.exn => []
  | ApiResponse.ok body =>
    match body.result? with
    | some (JsonVal.arr xs) => xs
    | _ => []

/-! ### Top-N ranking (`get_top_n_symbols_by_volume`, src lines 81-117) -/

/-- The ranking column name (src line 101). -/
def VOLUME_COLUMN : String := "turnover_usd"

/-- The fixed display column set (src line 114). -/
def desired_cols : List String :=
  ["symbol", VOLUME_COLUMN, "volume", "last_price", "close", "open", "high", "low"]

/-- Columns of `pd.DataFrame(rows)`: every key occurring in some row. -/
def dfColumns (rows : List Dict) : List String :=
  ((rows.map (fun r => r.map Prod.fst)).flatten).dedup

/-- `pd.to_numeric(cell, errors='coerce')`: numeric values keep their
number, everything else becomes NaN (`none`). -/
def toNumericCoerce : JVal → Option Int
  | JVal.num v => some v
  | _ => none

/-- The coerced `turnover_usd` cell of one ticker row; `none` both when
the key is absent (NaN cell) and when the value is non-numeric. -/
def turnoverNum (r : Dict) : Option Int :=
  (alistGet VOLUME_COLUMN r).bind toNumericCoerce

/-- Sort key used by `sort_values(by='turnover_usd', ascending=False)`;
rows reaching the sort all have a numeric value, so the default is
irrelevant. -/
def tKey (r : Dict) : Int :=
  (turnoverNum r).getD 0

/-- Insert one row into a list already sorted by descending `tKey`. -/
def insertDesc (r : Dict) : List Dict → List Dict
  | [] => [r]
  | x :: xs => if tKey x ≤ tKey r then r :: x :: xs else x :: insertDesc r xs

/-- Sort rows by descending `tKey` (the pandas sort is unstable, but every
property proved below is order-insensitive among equal keys). -/
def sortDesc : List Dict → List Dict
  | [] => []
  | x :: xs => insertDesc x (sortDesc xs)

/-- Projection `df[existing_cols]` of one row: the chosen columns in
order, a missing key giving a NaN cell (`none`). -/
def projectRow (cols : List String) (r : Dict) : List (String × Option JVal) :=
  cols.map (fun c => (c, alistGet c r))

/-- `get_top_n_symbols_by_volume` (src lines 81-117) with the ticker fetch
outcome supplied as the already-fetched list.  The returned DataFrame is a
pair (column list, rows); `pd.DataFrame()` is `([], [])`. -/
def get_top_n_symbols_by_volume (tickers : List Dict) (n : Nat) :
    List String × List (List (String × Option JVal)) :=
  if tickers = [] then ([], [])
  else
    let cols := dfColumns tickers
    if VOLUME_COLUMN ∈ cols then
      let kept := tickers.filter (fun r => (turnoverNum r).isSome)
      let sorted := sortDesc kept
      let top := sorted.take n
      let existing := desired_cols.filter (fun c => c ∈ cols)
      (existing, top.map (projectRow existing))
    else ([], [])

/-- The coerced turnover value of one projected output row. -/
def rowTurnover (row : List (String × Option JVal)) : Option Int :=
  (alistGet VOLUME_COLUMN row).bind (fun o => o.bind toNumericCoerce)

/-! ### Pagination loop (`get_ohlc_data_paginated`, src lines 120-219) -/

/-- One candle dictionary.  `time?` models the `time` key (absent =
`none`); the OHLCV payload never influences control flow. -/
structure RawCandle where
  time? : Option Int
  open_ : Int
  high : Int
  low : Int
  close : Int
  volume : Int
deriving DecidableEq, Repr

/-- Outcome of one candles request inside the loop body: `exn` is any
exception (network error, timeout, non-2xx, JSON parse failure),
`malformed` an HTTP 200 body without a list-valued `result` key, and
`page cs` a well-formed page. -/
inductive FetchOutcome where
  | exn
  | malformed
  | page (cs : List RawCandle)
deriving DecidableEq, Repr

/-- `candles_page[-1]['time']` as a total function: `none` when the page
is empty or the last candle has no `time` key (the dict access would
raise). -/
def lastTime? (cs : List RawCandle) : Option Int :=
  match cs.getLast? with
  | some c => c.time?
  | none => none

/-- State of one pagination run: the accumulated `all_candles` list, the
non-empty pages appended so far, and the number of fetch attempts made. -/
structure RunState where
  candles : List RawCandle
  pages : List (List RawCandle)
  calls : Nat
deriving DecidableEq, Repr

/-- Record one fetch attempt that contributed no candles. -/
def RunState.bump (st : RunState) : RunState :=
  ⟨st.candles, st.pages, st.calls + 1⟩

/-- Initial state of a pagination run. -/
def initState : RunState := ⟨[], [], 0⟩

/-- The `while current_chunk_start_timestamp <= overall_end_timestamp`
loop (src lines 153-206), fuel-indexed.  `none` = fuel exhausted.  Break
order follows the source: exception, malformed envelope, empty page, then
after extending `all_candles`: last time `≥ overall_end`, cursor update to
`last time + 1`, page smaller than `limit_per_request`.  (The cursor
update precedes the size check in the source, but a break discards the
cursor, so the behaviour is identical.)  A `time.sleep(0.1)` between
continuing iterations has no observable effect here. -/
def runLoop (fetch : Int → FetchOutcome) (overallEnd : Int) (limit : Nat) :
    Nat → Int → RunState → Option RunState
  | 0, _, _ => none
  | fuel + 1, cursor, st =>
    if cursor ≤ overallEnd then
      match fetch cursor with
      | FetchOutcome.exn => some st.bump
      | FetchOutcome.malformed => some st.bump
      | FetchOutcome.page cs =>
        if cs.isEmpty then some st.bump
        else
          let st' : RunState := ⟨st.candles ++ cs, st.pages ++ [cs], st.calls + 1⟩
          match lastTime? cs with
          | none => some st'
          | some t =>
            if overallEnd ≤ t then some st'
            else if cs.length < limit then some st'
            else runLoop fetch overallEnd limit fuel (t + 1) st'
    else some st

/-! ### Tabular assembly (src lines 208-219) -/

/-- `drop_duplicates(subset=['time'])`: keep the first row of each `time`
value (pandas treats NaN as equal to NaN, so `none` keys deduplicate
too).  `seen` is the set of keys already kept. -/
def dedupTime (seen : List (Option Int)) : List RawCandle → List RawCandle
  | [] => []
  | c :: cs =>
    if c.time? ∈ seen then dedupTime seen cs
    else c :: dedupTime (c.time? :: seen) cs

/-- Comparison used by `sort_values(by='time')`: ascending with NaT last
(pandas `na_position='last'`). -/
def timeLE : Option Int → Option Int → Bool
  | some a, some b => decide (a ≤ b)
  | some _, none => true
  | none, some _ => false
  | none, none => true

/-- Insert one candle into a list already sorted by `timeLE`. -/
def insertTime (c : RawCandle) : List RawCandle → List RawCandle
  | [] => [c]
  | d :: ds => if timeLE c.time? d.time? then c :: d :: ds else d :: insertTime c ds

/-- Sort candles by `timeLE` (after deduplication the `time` keys are
pairwise distinct, so any comparison sort yields this order). -/
def sortTime : List RawCandle → List RawCandle
  | [] => []
  | c :: cs => insertTime c (sortTime cs)

/-- The range filter `(df['time'] >= start) & (df['time'] <= end)`; a NaT
cell compares false on both sides and is dropped. -/
def inRange (s e : Int) (c : RawCandle) : Bool :=
  match c.time? with
  | some t => decide (s ≤ t) && decide (t ≤ e)
  | none => false

/-- Assembly of `all_candles` into the final frame (src lines 208-219):
non-empty input is deduplicated by time, sorted ascending, and filtered to
the inclusive `[start, end]` window; empty input yields the empty frame
`pd.DataFrame()`. -/
def assembleTable (s e : Int) (cs : List RawCandle) : List RawCandle :=
  match cs with
  | [] => []
  | _ :: _ => (sortTime (dedupTime [] cs)).filter (inRange s e)

/-- One row of the returned frame, after the projection
`df[['time','open','high','low','close','volume']]` (src line 216):
exactly the fixed column schema. -/
structure OhlcRow where
  time : Option Int
  open_ : Int
  high : Int
  low : Int
  close : Int
  volume : Int
deriving DecidableEq, Repr

/-- Project one assembled candle onto the fixed output schema. -/
def projectCandle (c : RawCandle) : OhlcRow :=
  ⟨c.time?, c.open_, c.high, c.low, c.close, c.volume⟩

/-- The frame returned by `get_ohlc_data_paginated` for a given
accumulated candle list. -/
def outputTable (s e : Int) (cs : List RawCandle) : List OhlcRow :=
  (assembleTable s e cs).map projectCandle

/-- `get_ohlc_data_paginated` (src lines 120-219): run the pagination
loop from `start_ts`, then assemble.  `start_ts` / `end_ts` are
`int(start_time_dt.timestamp())` / `int(end_time_dt.timestamp())`; the
final range filter compares against the same instants because the
datetimes have whole seconds.  `none` = the given fuel did not cover the
run. -/
def get_ohlc_data_paginated (fetch : Int → FetchOutcome)
    (start_ts end_ts : Int) (limit : Nat) (fuel : Nat) :
    Option (List OhlcRow) :=
  (runLoop fetch end_ts limit fuel start_ts initState).map
    (fun st => outputTable start_ts end_ts st.candles)

/-! ### Interactive input (src lines 222-280) -/

/-- Python `str.strip()` on a character list: drop whitespace from both
ends. -/
def stripChars (l : List Char) : List Char :=
  ((l.dropWhile Char.isWhitespace).reverse.dropWhile Char.isWhitespace).reverse

/-- Python `text.strip().upper()` (ASCII symbols, as the exchange uses). -/
def normalizeSymbol (s : String) : String :=
  String.mk ((stripChars s.data).map Char.toUpper)

/-- `get_user_input_symbol` (src lines 222-234) over an explicit stream of
user inputs: normalise (strip, upper-case), return the first normalised
input found in the available set, otherwise print and re-prompt.  `none` =
the stream ran out without a valid input (the Python loop would still be
prompting). -/
def get_user_input_symbol (available : List String) : List String → Option String
  | [] => none
  | i :: rest =>
    let user_symbol := normalizeSymbol i
    if user_symbol ∈ available then some user_symbol
    else get_user_input_symbol available rest

/-- A `datetime` at second granularity (every datetime this program
builds has `microsecond = 0`). -/
structure PyDateTime where
  year : Int
  month : Int
  day : Int
  hour : Int
  minute : Int
  second : Int
deriving DecidableEq, Repr

/-- Lexicographic strict order on datetimes. -/
def dtLT (a b : PyDateTime) : Bool :=
  decide (a.year < b.year ∨ (a.year = b.year ∧
    (a.month < b.month ∨ (a.month = b.month ∧
      (a.day < b.day ∨ (a.day = b.day ∧
        (a.hour < b.hour ∨ (a.hour = b.hour ∧
          (a.minute < b.minute ∨ (a.minute = b.minute ∧
            a.second < b.second))))))))))

/-- One accepted-integers iteration of `get_user_input_date_range`
(src lines 240-280): `none` = the iteration hit a `continue` (re-prompt),
`some (start, end)` = the returned pair.  `now` stands for both
`datetime.now()` (year bound) and `datetime.now(timezone.utc)` (clamp);
the source consults the clock separately but within one iteration the
instants coincide at this granularity. -/
def get_user_input_date_range_attempt (start_year end_year : Int)
    (now : PyDateTime) : Option (PyDateTime × PyDateTime) :=
  if ¬(1900 ≤ start_year ∧ start_year ≤ now.year ∧
        1900 ≤ end_year ∧ end_year ≤ now.year) then
    none
  else if end_year < start_year then
    none
  else
    let start_date_obj :=
      if start_year < 2020 then
        -- warning branch (src lines 255-263): advisory print only, the
        -- start is still Jan 1 of the user's year
        PyDateTime.mk start_year 1 1 0 0 0
      else
        PyDateTime.mk start_year 1 1 0 0 0
    let end0 := PyDateTime.mk end_year 12 31 23 59 59
    let end_date_obj :=
      if dtLT now end0 then
        -- src line 273: replace(hour=23, minute=59, second=59, microsecond=0)
        PyDateTime.mk now.year now.month now.day 23 59 59
      else end0
    some (start_date_obj, end_date_obj)

/-! ### Helper lemmas -/

/-- A non-nil list is not `isEmpty`. -/
theorem isEmpty_false_of_ne_nil {cs : List RawCandle} (h : cs ≠ []) :
    cs.isEmpty = false := by
  cases cs with
  | nil => exact absurd rfl h
  | cons a l => rfl

/-- The range filter succeeds exactly on candles with a present `time`
inside the inclusive window. -/
theorem inRange_iff (s e : Int) (c : RawCandle) :
    inRange s e c = true ↔ ∃ t, c.time? = some t ∧ s ≤ t ∧ t ≤ e := by
  cases h : c.time? with
  | none => simp [inRange, h]
  | some t => simp [inRange, h]

/-- Deduplication yields pairwise-distinct `time` keys, none of them in
`seen`. -/
theorem dedupTime_keys (l : List RawCandle) :
    ∀ seen : List (Option Int),
      ((dedupTime seen l).map RawCandle.time?).Nodup ∧
      ∀ k ∈ (dedupTime seen l).map RawCandle.time?, k ∉ seen := by
  induction l with
  | nil => intro seen; simp [dedupTime]
  | cons c cs ih =>
    intro seen
    by_cases h : c.time? ∈ seen
    · simpa [dedupTime, h] using ih seen
    · obtain ⟨ih1, ih2⟩ := ih (c.time? :: seen)
      have hstep : dedupTime seen (c :: cs) = c :: dedupTime (c.time? :: seen) cs := by
        simp [dedupTime, h]
      constructor
      · rw [hstep, List.map_cons, List.nodup_cons]
        exact ⟨fun hx => (ih2 _ hx) (List.mem_cons_self _ _), ih1⟩
      · rw [hstep, List.map_cons]
        intro k hk
        rcases List.mem_cons.mp hk with hk | hk
        · subst hk; exact h
        · exact fun hs => (ih2 _ hk) (List.mem_cons_of_mem _ hs)

/-- Inserting into a list is a permutation of consing. -/
theorem insertTime_perm (c : RawCandle) (l : List RawCandle) :
    List.Perm (insertTime c l) (c :: l) := by
  induction l with
  | nil => exact List.Perm.refl _
  | cons d ds ih =>
    by_cases h : timeLE c.time? d.time?
    · rw [show insertTime c (d :: ds) = c :: d :: ds from by simp [insertTime, h]]
    · rw [show insertTime c (d :: ds) = d :: insertTime c ds from by simp [insertTime, h]]
      exact List.Perm.trans (List.Perm.cons d ih) (List.Perm.swap c d ds)

/-- The insertion sort permutes its input. -/
theorem sortTime_perm (l : List RawCandle) : List.Perm (sortTime l) l := by
  induction l with
  | nil => exact List.Perm.refl _
  | cons c cs ih =>
    exact List.Perm.trans (insertTime_perm c (sortTime cs)) (List.Perm.cons c ih)

/-- `timeLE` is total. -/
theorem timeLE_total (a b : Option Int) : timeLE a b = true ∨ timeLE b a = true := by
  cases a <;> cases b <;> simp [timeLE]
  omega

/-- `timeLE` is transitive. -/
theorem timeLE_trans {a b c : Option Int} (h1 : timeLE a b = true)
    (h2 : timeLE b c = true) : timeLE a c = true := by
  cases a <;> cases b <;> cases c <;> simp [timeLE] at *
  omega

/-- Inserting into a `timeLE`-sorted list keeps it sorted. -/
theorem insertTime_sorted (c : RawCandle) (l : List RawCandle)
    (hl : l.Pairwise (fun a b => timeLE a.time? b.time? = true)) :
    (insertTime c l).Pairwise (fun a b => timeLE a.time? b.time? = true) := by
  induction l with
  | nil => simp [insertTime]
  | cons d ds ih =>
    rw [List.pairwise_cons] at hl
    obtain ⟨hd, hds⟩ := hl
    by_cases h : timeLE c.time? d.time?
    · rw [show insertTime c (d :: ds) = c :: d :: ds from by simp [insertTime, h]]
      rw [List.pairwise_cons]
      refine ⟨?_, List.pairwise_cons.mpr ⟨hd, hds⟩⟩
      intro a ha
      rcases List.mem_cons.mp ha with rfl | ha
      · exact h
      · exact timeLE_trans h (hd a ha)
    · rw [show insertTime c (d :: ds) = d :: insertTime c ds from by simp [insertTime, h]]
      rw [List.pairwise_cons]
      have hdc : timeLE d.time? c.time? = true := by
        rcases timeLE_total c.time? d.time? with h' | h'
        · exact absurd h' h
        · exact h'
      refine ⟨?_, ih hds⟩
      intro a ha
      have ha' : a ∈ c :: ds := (insertTime_perm c ds).mem_iff.mp ha
      rcases List.mem_cons.mp ha' with rfl | ha'
      · exact hdc
      · exact hd a ha'

/-- The insertion sort sorts by `timeLE`. -/
theorem sortTime_sorted (l : List RawCandle) :
    (sortTime l).Pairwise (fun a b => timeLE a.time? b.time? = true) := by
  induction l with
  | nil => simp [sortTime]
  | cons c cs ih => exact insertTime_sorted c (sortTime cs) ih

/-- Rows of the assembled frame have a present, in-window time, and the
frame is strictly ascending in time. -/
theorem assembleTable_sorted_bounded (s e : Int) (cs : List RawCandle) :
    (∀ c ∈ assembleTable s e cs, ∃ t, c.time? = some t ∧ s ≤ t ∧ t ≤ e) ∧
    (assembleTable s e cs).Pairwise
      (fun a b => ∃ ta tb, a.time? = some ta ∧ b.time? = some tb ∧ ta < tb) := by
  cases cs with
  | nil => simp [assembleTable]
  | cons c0 cs0 =>
    have hdef : assembleTable s e (c0 :: cs0) =
        (sortTime (dedupTime [] (c0 :: cs0))).filter (inRange s e) := rfl
    have hmem : ∀ c ∈ assembleTable s e (c0 :: cs0), inRange s e c = true := by
      intro c hc
      rw [hdef] at hc
      exact (List.mem_filter.mp hc).2
    constructor
    · intro c hc
      exact (inRange_iff s e c).mp (hmem c hc)
    · have hperm : List.Perm (sortTime (dedupTime [] (c0 :: cs0)))
          (dedupTime [] (c0 :: cs0)) := sortTime_perm _
      have hnd : ((sortTime (dedupTime [] (c0 :: cs0))).map RawCandle.time?).Nodup :=
        ((hperm.map RawCandle.time?).nodup_iff).mpr (dedupTime_keys (c0 :: cs0) []).1
      have hne : (sortTime (dedupTime [] (c0 :: cs0))).Pairwise
          (fun a b => a.time? ≠ b.time?) := List.pairwise_map.mp hnd
      have hsorted := sortTime_sorted (dedupTime [] (c0 :: cs0))
      have hstrict : (sortTime (dedupTime [] (c0 :: cs0))).Pairwise
          (fun a b => timeLE a.time? b.time? = true ∧ a.time? ≠ b.time?) :=
        hsorted.and hne
      have hsub : List.Sublist (assembleTable s e (c0 :: cs0))
          (sortTime (dedupTime [] (c0 :: cs0))) := by
        rw [hdef]; exact List.filter_sublist _
      have hpair := hstrict.sublist hsub
      refine List.Pairwise.imp_of_mem ?_ hpair
      intro a b ha hb hab
      obtain ⟨ta, hta, _, _⟩ := (inRange_iff s e a).mp (hmem a ha)
      obtain ⟨tb, htb, _, _⟩ := (inRange_iff s e b).mp (hmem b hb)
      obtain ⟨hle, hneq⟩ := hab
      rw [hta, htb] at hle hneq
      refine ⟨ta, tb, hta, htb, ?_⟩
      have h1 : ta ≤ tb := by simpa [timeLE] using hle
      have h2 : ta ≠ tb := fun h => hneq (by rw [h])
      exact lt_of_le_of_ne h1 h2

/-- The same two properties carried through the column projection. -/
theorem outputTable_sorted_bounded (s e : Int) (cs : List RawCandle) :
    (∀ row ∈ outputTable s e cs, ∃ t, row.time = some t ∧ s ≤ t ∧ t ≤ e) ∧
    (outputTable s e cs).Pairwise
      (fun a b => ∃ ta tb, a.time = some ta ∧ b.time = some tb ∧ ta < tb) := by
  obtain ⟨h1, h2⟩ := assembleTable_sorted_bounded s e cs
  constructor
  · intro row hrow
    obtain ⟨c, hc, rfl⟩ := List.mem_map.mp hrow
    obtain ⟨t, ht, hb⟩ := h1 c hc
    exact ⟨t, ht, hb⟩
  · refine List.Pairwise.map projectCandle ?_ h2
    intro a b hab
    obtain ⟨ta, tb, h1', h2', h3'⟩ := hab
    exact ⟨ta, tb, h1', h2', h3'⟩

/-! ### Concrete fetchers used as witnesses -/

/-- A candle at time `t` with zero OHLCV payload. -/
def mkCandle (t : Int) : RawCandle := ⟨some t, 0, 0, 0, 0, 0⟩

/-- The ten available daily candle timestamps of the C3 example. -/
def dailyTimes : List Int := (List.range 10).map (fun i => (i : Int) * 86400)

/-- An API holding `dailyTimes` and answering each request with at most 4
candles at or after the requested start (all lie before the overall end,
so the end bound of the request is vacuous). -/
def fetchDaily (cursor : Int) : FetchOutcome :=
  FetchOutcome.page
    (((dailyTimes.filter (fun t => decide (cursor ≤ t))).take 4).map mkCandle)

/-- The expected output table of the C3 / C1 example run. -/
def tblW : List OhlcRow := dailyTimes.map (fun t => ⟨some t, 0, 0, 0, 0, 0⟩)

/-- An API echoing each cursor back as a single candle. -/
def fetchEcho (c : Int) : FetchOutcome := FetchOutcome.page [mkCandle c]

/-- An API whose single candle lacks the `time` key. -/
def fetchNoTime (_ : Int) : FetchOutcome :=
  FetchOutcome.page [⟨none, 1, 2, 3, 4, 5⟩]

/-- An API that always answers with an empty page. -/
def fetchNone (_ : Int) : FetchOutcome := FetchOutcome.page []

/-! ### Claims -/

/-- Claim C1: for every pagination run of `get_ohlc_data_paginated`, the
returned table's timestamps are strictly ascending with no duplicates,
and every row's time lies within the inclusive bounds
`[start_time_dt, end_time_dt]`, even if the API returned candles outside
that window. -/
theorem C1_table_sorted_and_bounded (fetch : Int → FetchOutcome)
    (s e : Int) (limit fuel : Nat) (tbl : List OhlcRow)
    (h : get_ohlc_data_paginated fetch s e limit fuel = some tbl) :
    (∀ row ∈ tbl, ∃ t, row.time = some t ∧ s ≤ t ∧ t ≤ e) ∧
    tbl.Pairwise (fun a b => ∃ ta tb, a.time = some ta ∧ b.time = some tb ∧ ta < tb) := by
  unfold get_ohlc_data_paginated at h
  obtain ⟨st, _, rfl⟩ := Option.map_eq_some'.mp h
  exact outputTable_sorted_bounded s e st.candles

theorem C1_witness :
    get_ohlc_data_paginated fetchDaily 0 863999 4 20 = some tblW ∧
    ((∀ row ∈ tblW, ∃ t, row.time = some t ∧ 0 ≤ t ∧ t ≤ 863999) ∧
      tblW.Pairwise (fun a b => ∃ ta tb, a.time = some ta ∧ b.time = some tb ∧ ta < tb)) :=
  ⟨by decide, C1_table_sorted_and_bounded fetchDaily 0 863999 4 20 tblW (by decide)⟩

/-- Claim C2: if, in an active iteration, the fetched page is non-empty,
its last candle's timestamp is below the overall end, and the page has
fewer candles than `limit_per_request`, then the loop stops after that
page (exactly one more fetch happens) and the page's candles are part of
the accumulated result. -/
theorem C2_short_page_stops_loop (fetch : Int → FetchOutcome) (e : Int)
    (limit fuel : Nat) (cursor : Int) (st : RunState) (cs : List RawCandle)
    (t : Int) (hc : cursor ≤ e) (hf : fetch cursor = FetchOutcome.page cs)
    (hne : cs ≠ []) (ht : lastTime? cs = some t) (hlt : t < e)
    (hsize : cs.length < limit) :
    runLoop fetch e limit (fuel + 1) cursor st =
      some ⟨st.candles ++ cs, st.pages ++ [cs], st.calls + 1⟩ := by
  simp [runLoop, hc, hf, isEmpty_false_of_ne_nil hne, ht, not_le.mpr hlt, hsize]

theorem C2_witness :
    runLoop fetchDaily 863999 4 6 604801 initState =
      some ⟨[mkCandle 691200, mkCandle 777600], [[mkCandle 691200, mkCandle 777600]], 1⟩ := by
  have h := C2_short_page_stops_loop fetchDaily 863999 4 5 604801 initState
      [mkCandle 691200, mkCandle 777600] 777600
      (by decide) (by decide) (by decide) (by decide) (by decide) (by decide)
  simpa [initState] using h

/-- Claim C3: every continuing iteration sets the cursor to the last
candle's timestamp plus one; and in the concrete example of a window with
10 available daily candles and an API answering at most 4 candles per
call with `limit_per_request = 4`, the run makes exactly 3 calls with
pages of sizes 4, 4 and 2 and the assembled table has exactly the 10
available rows with no gaps. -/
theorem C3_cursor_advance_and_example :
    (∀ (fetch : Int → FetchOutcome) (e : Int) (limit fuel : Nat)
        (cursor : Int) (st : RunState) (cs : List RawCandle) (t : Int),
      cursor ≤ e → fetch cursor = FetchOutcome.page cs → cs ≠ [] →
      lastTime? cs = some t → t < e → ¬cs.length < limit →
      runLoop fetch e limit (fuel + 1) cursor st =
        runLoop fetch e limit fuel (t + 1)
          ⟨st.candles ++ cs, st.pages ++ [cs], st.calls + 1⟩) ∧
    (runLoop fetchDaily 863999 4 20 0 initState).map
        (fun st => (st.calls, st.pages.map List.length)) = some (3, [4, 4, 2]) ∧
    (get_ohlc_data_paginated fetchDaily 0 863999 4 20).map
        (fun tbl => (tbl.length, tbl.map OhlcRow.time)) =
      some (10, dailyTimes.map some) := by
  refine ⟨?_, by decide, by decide⟩
  intro fetch e limit fuel cursor st cs t hc hf hne ht hlt hsize
  simp [runLoop, hc, hf, isEmpty_false_of_ne_nil hne, ht, not_le.mpr hlt, hsize]

theorem C3_witness :
    runLoop fetchDaily 863999 4 6 0 initState =
      runLoop fetchDaily 863999 4 5 259201
        ⟨[mkCandle 0, mkCandle 86400, mkCandle 172800, mkCandle 259200],
         [[mkCandle 0, mkCandle 86400, mkCandle 172800, mkCandle 259200]], 1⟩ := by
  have h := C3_cursor_advance_and_example.1 fetchDaily 863999 4 5 0 initState
      [mkCandle 0, mkCandle 86400, mkCandle 172800, mkCandle 259200] 259200
      (by decide) (by decide) (by decide) (by decide) (by decide) (by decide)
  simpa [initState] using h

/-- Claim C6: a run that accumulates no candles — for example because the
fetcher answers the first call with an empty page — returns the empty
table, with no error and no schema violation (rows are `OhlcRow` records
of the fixed column set by construction). -/
theorem C6_empty_accumulation_empty_table (fetch : Int → FetchOutcome)
    (s e : Int) (limit fuel : Nat)
    (hf : fetch s = FetchOutcome.page []) :
    get_ohlc_data_paginated fetch s e limit (fuel + 1) = some [] ∧
    outputTable s e [] = [] := by
  refine ⟨?_, rfl⟩
  by_cases hc : s ≤ e
  · simp [get_ohlc_data_paginated, runLoop, hc, hf, RunState.bump, initState,
      outputTable, assembleTable]
  · simp [get_ohlc_data_paginated, runLoop, hc, initState, outputTable, assembleTable]

theorem C6_witness :
    get_ohlc_data_paginated fetchNone 0 863999 4 6 = some [] ∧
    outputTable 0 863999 [] = [] :=
  C6_empty_accumulation_empty_table fetchNone 0 863999 4 5 (by decide)

/-- Claim C10: if a non-empty fetched page's last candle has no `time`
key (reading it raises), the loop stops, but the page was already
appended to the accumulator before the read, so its candles still reach
tabular assembly. -/
theorem C10_missing_time_stops_but_keeps_page (fetch : Int → FetchOutcome)
    (e : Int) (limit fuel : Nat) (cursor : Int) (st : RunState)
    (cs : List RawCandle) (hc : cursor ≤ e)
    (hf : fetch cursor = FetchOutcome.page cs) (hne : cs ≠ [])
    (ht : lastTime? cs = none) :
    runLoop fetch e limit (fuel + 1) cursor st =
      some ⟨st.candles ++ cs, st.pages ++ [cs], st.calls + 1⟩ ∧
    get_ohlc_data_paginated fetch cursor e limit (fuel + 1) =
      some (outputTable cursor e cs) := by
  have hstep : ∀ st' : RunState, runLoop fetch e limit (fuel + 1) cursor st' =
      some ⟨st'.candles ++ cs, st'.pages ++ [cs], st'.calls + 1⟩ := by
    intro st'
    simp [runLoop, hc, hf, isEmpty_false_of_ne_nil hne, ht]
  refine ⟨hstep st, ?_⟩
  rw [get_ohlc_data_paginated, hstep initState]
  simp [initState]

theorem C10_witness :
    runLoop fetchNoTime 863999 4 6 0 initState =
      some ⟨[⟨none, 1, 2, 3, 4, 5⟩], [[⟨none, 1, 2, 3, 4, 5⟩]], 1⟩ ∧
    get_ohlc_data_paginated fetchNoTime 0 863999 4 6 =
      some (outputTable 0 863999 [⟨none, 1, 2, 3, 4, 5⟩]) := by
  have h := C10_missing_time_stops_but_keeps_page fetchNoTime 863999 4 5 0
      initState [⟨none, 1, 2, 3, 4, 5⟩] (by decide) (by decide) (by decide) (by decide)
  simpa [initState] using h

/-- Fuel bound for the pagination loop: when every page large enough to
continue the loop ends at or after the cursor that requested it, fuel
`(e - cursor).toNat + 1` always suffices. -/
theorem runLoop_fuel_sufficient (fetch : Int → FetchOutcome) (e : Int)
    (limit : Nat)
    (hmono : ∀ c cs t, fetch c = FetchOutcome.page cs → limit ≤ cs.length →
      lastTime? cs = some t → c ≤ t) :
    ∀ (fuel : Nat) (cursor : Int) (st : RunState),
      (e - cursor).toNat < fuel →
      ∃ st', runLoop fetch e limit fuel cursor st = some st' := by
  intro fuel
  induction fuel with
  | zero => intro cursor st h; omega
  | succ n ih =>
    intro cursor st h
    by_cases hc : cursor ≤ e
    · cases hfetch : fetch cursor with
      | exn => exact ⟨st.bump, by simp [runLoop, hc, hfetch]⟩
      | malformed => exact ⟨st.bump, by simp [runLoop, hc, hfetch]⟩
      | page cs =>
        by_cases hemp : cs.isEmpty
        · exact ⟨st.bump, by simp [runLoop, hc, hfetch, hemp]⟩
        · cases ht : lastTime? cs with
          | none =>
            exact ⟨⟨st.candles ++ cs, st.pages ++ [cs], st.calls + 1⟩,
              by simp [runLoop, hc, hfetch, hemp, ht]⟩
          | some t =>
            by_cases hend : e ≤ t
            · exact ⟨⟨st.candles ++ cs, st.pages ++ [cs], st.calls + 1⟩,
                by simp [runLoop, hc, hfetch, hemp, ht, hend]⟩
            · by_cases hsize : cs.length < limit
              · exact ⟨⟨st.candles ++ cs, st.pages ++ [cs], st.calls + 1⟩,
                  by simp [runLoop, hc, hfetch, hemp, ht, hend, hsize]⟩
              · have hct : cursor ≤ t :=
                  hmono cursor cs t hfetch (le_of_not_lt hsize) ht
                have hfuel : (e - (t + 1)).toNat < n := by omega
                obtain ⟨st', hst'⟩ :=
                  ih (t + 1) ⟨st.candles ++ cs, st.pages ++ [cs], st.calls + 1⟩ hfuel
                exact ⟨st', by
                  simpa [runLoop, hc, hfetch, hemp, ht, hend, hsize] using hst'⟩
    · exact ⟨st, by simp [runLoop, hc]⟩

/-- Claim C9: the pagination loop terminates for every request, under the
precondition that each returned page that fills the request limit has a
last candle stamped at or after the cursor that requested it (the cursor
then strictly increases across continuing iterations); and the
continuation condition is `cursor ≤ overall_end` — a loop entered with
`cursor > overall_end` stops at once with the state untouched. -/
theorem C9_pagination_terminates (fetch : Int → FetchOutcome) (s e : Int)
    (limit : Nat)
    (hmono : ∀ c cs t, fetch c = FetchOutcome.page cs → limit ≤ cs.length →
      lastTime? cs = some t → c ≤ t) :
    (∃ st', runLoop fetch e limit ((e - s).toNat + 1) s initState = some st') ∧
    (∀ (fuel : Nat) (cursor : Int) (st : RunState), ¬cursor ≤ e →
      runLoop fetch e limit (fuel + 1) cursor st = some st) := by
  constructor
  · exact runLoop_fuel_sufficient fetch e limit hmono ((e - s).toNat + 1) s
      initState (by omega)
  · intro fuel cursor st hc
    simp [runLoop, hc]

theorem C9_witness :
    (runLoop fetchEcho 3 1 (((3 : Int) - 0).toNat + 1) 0 initState).isSome = true := by
  obtain ⟨st', h⟩ := (C9_pagination_terminates fetchEcho 0 3 1 (by
    intro c cs t hf hlen ht
    rw [show fetchEcho c = FetchOutcome.page [mkCandle c] from rfl] at hf
    injection hf with hcs
    subst hcs
    rw [show lastTime? [mkCandle c] = some c from rfl] at ht
    injection ht with hct
    exact le_of_eq hct)).1
  rw [h]
  rfl

/-- Claim C4: both envelope fetchers return the `result` list on an
HTTP 200 response whose `result` key holds a list, and the empty list on
network failure, timeout, non-2xx status, or a malformed / missing
`result` key; being total Lean functions, they raise nothing. -/
theorem C4_fetchers_result_or_empty (r : ApiResponse) :
    (∀ xs, r = ApiResponse.ok ⟨some (JsonVal.arr xs)⟩ →
      get_all_products r = xs ∧ get_all_tickers r = xs) ∧
    ((∀ xs, r ≠ ApiResponse.ok ⟨some (JsonVal.arr xs)⟩) →
      get_all_products r = [] ∧ get_all_tickers r = []) := by
  constructor
  · rintro xs rfl
    exact ⟨rfl, rfl⟩
  · intro h
    match r with
    | ApiResponse.netErr => exact ⟨rfl, rfl⟩
    | ApiResponse.exn => exact ⟨rfl, rfl⟩
    | ApiResponse.ok ⟨none⟩ => exact ⟨rfl, rfl⟩
    | ApiResponse.ok ⟨some (JsonVal.arr xs)⟩ => exact absurd rfl (h xs)
    | ApiResponse.ok ⟨some JsonVal.other⟩ => exact ⟨rfl, rfl⟩

theorem C4_witness :
    get_all_products (ApiResponse.ok ⟨some (JsonVal.arr [[("symbol", JVal.str "BTCUSD")]])⟩) =
      [[("symbol", JVal.str "BTCUSD")]] ∧
    get_all_tickers ApiResponse.netErr = [] := by
  have h1 := (C4_fetchers_result_or_empty
      (ApiResponse.ok ⟨some (JsonVal.arr [[("symbol", JVal.str "BTCUSD")]])⟩)).1
      [[("symbol", JVal.str "BTCUSD")]] rfl
  have h2 := (C4_fetchers_result_or_empty ApiResponse.netErr).2
      (by intro xs hx; cases hx)
  exact ⟨h1.1, h2.2⟩

/-- Claim C8: the symbol prompt only ever returns the trimmed, upper-cased
form of some input, and only when that form belongs to the available set;
an input whose normalised form is not in the set is skipped and the loop
re-prompts on the remaining stream instead of terminating or returning it. -/
theorem C8_symbol_prompt_validates (available : List String) :
    (∀ inputs s, get_user_input_symbol available inputs = some s →
      s ∈ available ∧ ∃ i ∈ inputs, s = normalizeSymbol i) ∧
    (∀ i rest, normalizeSymbol i ∉ available →
      get_user_input_symbol available (i :: rest) =
        get_user_input_symbol available rest) := by
  constructor
  · intro inputs
    induction inputs with
    | nil => intro s h; cases h
    | cons i rest ih =>
      intro s h
      by_cases hmem : normalizeSymbol i ∈ available
      · rw [show get_user_input_symbol available (i :: rest) =
            some (normalizeSymbol i) from by
          simp [get_user_input_symbol, hmem]] at h
        injection h with h
        subst h
        exact ⟨hmem, i, List.mem_cons_self _ _, rfl⟩
      · rw [show get_user_input_symbol available (i :: rest) =
            get_user_input_symbol available rest from by
          simp [get_user_input_symbol, hmem]] at h
        obtain ⟨hs, j, hj, hje⟩ := ih s h
        exact ⟨hs, j, List.mem_cons_of_mem _ hj, hje⟩
  · intro i rest hmem
    simp [get_user_input_symbol, hmem]

theorem C8_witness :
    get_user_input_symbol ["BTCUSD", "ETHUSD"] [" xrpusd ", " btcusd "] = some "BTCUSD" ∧
    ("BTCUSD" ∈ ["BTCUSD", "ETHUSD"] ∧
      ∃ i ∈ [" xrpusd ", " btcusd "], "BTCUSD" = normalizeSymbol i) := by
  refine ⟨by decide, ?_⟩
  exact (C8_symbol_prompt_validates ["BTCUSD", "ETHUSD"]).1
    [" xrpusd ", " btcusd "] "BTCUSD" (by decide)

/-- Claim C5, counterexample: with the clock at 2026-10-12 12:00:00 UTC
and accepted years 2020..2026, the raw end (Dec 31 2026 23:59:59) exceeds
"now", yet the function returns end = 2026-10-12 23:59:59 — the end of the
current day, which differs from (and still exceeds) the current moment,
so the end is not clamped to the current moment as claimed. -/
theorem C5_counterexample :
    get_user_input_date_range_attempt 2020 2026 (PyDateTime.mk 2026 10 12 12 0 0) =
      some (PyDateTime.mk 2020 1 1 0 0 0, PyDateTime.mk 2026 10 12 23 59 59) ∧
    dtLT (PyDateTime.mk 2026 10 12 12 0 0) (PyDateTime.mk 2026 12 31 23 59 59) = true ∧
    PyDateTime.mk 2026 10 12 23 59 59 ≠ PyDateTime.mk 2026 10 12 12 0 0 ∧
    dtLT (PyDateTime.mk 2026 10 12 12 0 0) (PyDateTime.mk 2026 10 12 23 59 59) = true := by
  refine ⟨by decide, by decide, by decide, by decide⟩

/-- Claim C5 as amended: for every pair of accepted integer years, the
attempt is rejected iff a year is outside `[1900, current year]` or the
start year exceeds the end year; an accepted pair yields
start = Jan 1 00:00:00 UTC of the start year (also when the start year
precedes the exchange's data-availability floor — that warning is
advisory) and end = Dec 31 23:59:59 UTC of the end year, except that when
that end exceeds the current time it is set to 23:59:59 (microseconds
zeroed) of the current UTC day — not clamped to the current moment. -/
theorem C5_amended_date_range (start_year end_year : Int) (now : PyDateTime) :
    (get_user_input_date_range_attempt start_year end_year now = none ↔
      (¬(1900 ≤ start_year ∧ start_year ≤ now.year ∧
          1900 ≤ end_year ∧ end_year ≤ now.year) ∨ end_year < start_year)) ∧
    (∀ s e, get_user_input_date_range_attempt start_year end_year now = some (s, e) →
      s = PyDateTime.mk start_year 1 1 0 0 0 ∧
      (dtLT now (PyDateTime.mk end_year 12 31 23 59 59) = false →
        e = PyDateTime.mk end_year 12 31 23 59 59) ∧
      (dtLT now (PyDateTime.mk end_year 12 31 23 59 59) = true →
        e = PyDateTime.mk now.year now.month now.day 23 59 59)) := by
  by_cases h1 : ¬(1900 ≤ start_year ∧ start_year ≤ now.year ∧
      1900 ≤ end_year ∧ end_year ≤ now.year)
  · constructor
    · simp [get_user_input_date_range_attempt, h1]
    · intro s e he
      rw [show get_user_input_date_range_attempt start_year end_year now = none from by
        simp [get_user_input_date_range_attempt, h1]] at he
      cases he
  · by_cases h2 : end_year < start_year
    · constructor
      · simp [get_user_input_date_range_attempt, h1, h2]
      · intro s e he
        rw [show get_user_input_date_range_attempt start_year end_year now = none from by
          simp [get_user_input_date_range_attempt, h1, h2]] at he
        cases he
    · cases hd : dtLT now (PyDateTime.mk end_year 12 31 23 59 59) with
      | false =>
        have hsome : get_user_input_date_range_attempt start_year end_year now =
            some (PyDateTime.mk start_year 1 1 0 0 0,
              PyDateTime.mk end_year 12 31 23 59 59) := by
          simp [get_user_input_date_range_attempt, h1, h2, hd]
        constructor
        · simp [hsome, h1, h2]
        · intro s e he
          rw [hsome] at he
          injection he with he
          injection he with hs hend
          subst hs; subst hend
          refine ⟨rfl, fun _ => rfl, fun hc => ?_⟩
          simp [hd] at hc
      | true =>
        have hsome : get_user_input_date_range_attempt start_year end_year now =
            some (PyDateTime.mk start_year 1 1 0 0 0,
              PyDateTime.mk now.year now.month now.day 23 59 59) := by
          simp [get_user_input_date_range_attempt, h1, h2, hd]
        constructor
        · simp [hsome, h1, h2]
        · intro s e he
          rw [hsome] at he
          injection he with he
          injection he with hs hend
          subst hs; subst hend
          refine ⟨rfl, fun hc => ?_, fun _ => rfl⟩
          simp [hd] at hc

theorem C5_witness :
    get_user_input_date_range_attempt 2019 2024 (PyDateTime.mk 2026 10 12 12 0 0) =
      some (PyDateTime.mk 2019 1 1 0 0 0, PyDateTime.mk 2024 12 31 23 59 59) ∧
    (PyDateTime.mk 2019 1 1 0 0 0 = PyDateTime.mk 2019 1 1 0 0 0 ∧
      PyDateTime.mk 2024 12 31 23 59 59 = PyDateTime.mk 2024 12 31 23 59 59) := by
  refine ⟨by decide, ?_⟩
  have h := (C5_amended_date_range 2019 2024 (PyDateTime.mk 2026 10 12 12 0 0)).2
      (PyDateTime.mk 2019 1 1 0 0 0) (PyDateTime.mk 2024 12 31 23 59 59) (by decide)
  exact ⟨h.1, h.2.1 (by decide)⟩

/-- Inserting a ticker row is a permutation of consing. -/
theorem insertDesc_perm (r : Dict) (l : List Dict) :
    List.Perm (insertDesc r l) (r :: l) := by
  induction l with
  | nil => exact List.Perm.refl _
  | cons x xs ih =>
    by_cases h : tKey x ≤ tKey r
    · rw [show insertDesc r (x :: xs) = r :: x :: xs from by simp [insertDesc, h]]
    · rw [show insertDesc r (x :: xs) = x :: insertDesc r xs from by simp [insertDesc, h]]
      exact List.Perm.trans (List.Perm.cons x ih) (List.Perm.swap r x xs)

/-- The descending insertion sort permutes its input. -/
theorem sortDesc_perm (l : List Dict) : List.Perm (sortDesc l) l := by
  induction l with
  | nil => exact List.Perm.refl _
  | cons x xs ih =>
    exact List.Perm.trans (insertDesc_perm x (sortDesc xs)) (List.Perm.cons x ih)

/-- Inserting into a descending-sorted row list keeps it sorted. -/
theorem insertDesc_sorted (r : Dict) (l : List Dict)
    (hl : l.Pairwise (fun a b => tKey b ≤ tKey a)) :
    (insertDesc r l).Pairwise (fun a b => tKey b ≤ tKey a) := by
  induction l with
  | nil => simp [insertDesc]
  | cons x xs ih =>
    rw [List.pairwise_cons] at hl
    obtain ⟨hx, hxs⟩ := hl
    by_cases h : tKey x ≤ tKey r
    · rw [show insertDesc r (x :: xs) = r :: x :: xs from by simp [insertDesc, h]]
      rw [List.pairwise_cons]
      refine ⟨?_, List.pairwise_cons.mpr ⟨hx, hxs⟩⟩
      intro a ha
      rcases List.mem_cons.mp ha with rfl | ha
      · exact h
      · exact le_trans (hx a ha) h
    · rw [show insertDesc r (x :: xs) = x :: insertDesc r xs from by simp [insertDesc, h]]
      rw [List.pairwise_cons]
      refine ⟨?_, ih hxs⟩
      intro a ha
      have ha' : a ∈ r :: xs := (insertDesc_perm r xs).mem_iff.mp ha
      rcases List.mem_cons.mp ha' with rfl | ha'
      · exact le_of_not_le h
      · exact hx a ha'

/-- The descending insertion sort sorts by descending `tKey`. -/
theorem sortDesc_sorted (l : List Dict) :
    (sortDesc l).Pairwise (fun a b => tKey b ≤ tKey a) := by
  induction l with
  | nil => simp [sortDesc]
  | cons x xs ih => exact insertDesc_sorted x (sortDesc xs) ih

/-- Looking a projected column up in a projected row recovers the
original cell. -/
theorem alistGet_projectRow (cols : List String) (r : Dict) (c : String)
    (hc : c ∈ cols) :
    alistGet c (projectRow cols r) = some (alistGet c r) := by
  induction cols with
  | nil => cases hc
  | cons c0 cr ih =>
    by_cases h : c = c0
    · subst h; simp [projectRow, alistGet]
    · rcases List.mem_cons.mp hc with h' | h'
      · exact absurd h' h
      · simpa [projectRow, alistGet, h] using ih h'

/-- When the turnover column is projected, the projected row's coerced
turnover agrees with the source row's. -/
theorem rowTurnover_projectRow (cols : List String) (r : Dict)
    (hc : VOLUME_COLUMN ∈ cols) :
    rowTurnover (projectRow cols r) = turnoverNum r := by
  rw [rowTurnover, alistGet_projectRow cols r _ hc]
  rfl

/-- The main branch of `get_top_n_symbols_by_volume` spelt out. -/
theorem get_top_n_eq (tickers : List Dict) (n : Nat) (hne : tickers ≠ [])
    (hcol : VOLUME_COLUMN ∈ dfColumns tickers) :
    get_top_n_symbols_by_volume tickers n =
      (desired_cols.filter (fun c => c ∈ dfColumns tickers),
       ((sortDesc (tickers.filter (fun r => (turnoverNum r).isSome))).take n).map
         (projectRow (desired_cols.filter (fun c => c ∈ dfColumns tickers)))) := by
  simp [get_top_n_symbols_by_volume, hne, hcol]

/-- Claim C7: the top-N ranking returns at most `n` rows, each with a
numeric coerced turnover (rows with a non-numeric or missing turnover are
excluded), adjacent rows are in descending turnover order, the output is
projected to the desired display columns that actually occur in the data,
and the result is empty when no tickers were retrieved or the turnover
column is absent. -/
theorem C7_top_n_ranking (tickers : List Dict) (n : Nat) :
    (tickers = [] → get_top_n_symbols_by_volume tickers n = ([], [])) ∧
    (VOLUME_COLUMN ∉ dfColumns tickers →
      get_top_n_symbols_by_volume tickers n = ([], [])) ∧
    (get_top_n_symbols_by_volume tickers n).2.length ≤ n ∧
    (∀ row ∈ (get_top_n_symbols_by_volume tickers n).2,
      ∃ v, rowTurnover row = some v) ∧
    (get_top_n_symbols_by_volume tickers n).2.Pairwise
      (fun a b => ∃ va vb, rowTurnover a = some va ∧ rowTurnover b = some vb ∧ vb ≤ va) ∧
    (tickers ≠ [] → VOLUME_COLUMN ∈ dfColumns tickers →
      (get_top_n_symbols_by_volume tickers n).1 =
        desired_cols.filter (fun c => c ∈ dfColumns tickers)) := by
  by_cases hne : tickers = []
  · subst hne
    refine ⟨fun _ => rfl, fun _ => rfl, ?_, ?_, ?_, ?_⟩
    · simp [get_top_n_symbols_by_volume]
    · simp [get_top_n_symbols_by_volume]
    · simp [get_top_n_symbols_by_volume]
    · intro h; exact absurd rfl h
  · by_cases hcol : VOLUME_COLUMN ∈ dfColumns tickers
    · have heq := get_top_n_eq tickers n hne hcol
      have hVexist : VOLUME_COLUMN ∈ desired_cols.filter
          (fun c => c ∈ dfColumns tickers) := by
        refine List.mem_filter.mpr ⟨?_, by simpa using hcol⟩
        simp [desired_cols]
      have hkept : ∀ r ∈ (sortDesc (tickers.filter
          (fun r => (turnoverNum r).isSome))).take n, ∃ v, turnoverNum r = some v := by
        intro r hr
        have hr1 : r ∈ sortDesc (tickers.filter (fun r => (turnoverNum r).isSome)) :=
          List.take_subset n _ hr
        have hr2 : r ∈ tickers.filter (fun r => (turnoverNum r).isSome) :=
          (sortDesc_perm _).mem_iff.mp hr1
        have hr3 := (List.mem_filter.mp hr2).2
        simpa [Option.isSome_iff_exists] using hr3
      refine ⟨fun h => absurd h hne, fun h => absurd hcol h, ?_, ?_, ?_,
        fun _ _ => by rw [heq]⟩
      · rw [heq]
        simp only [List.length_map]
        exact List.length_take_le n _
      · rw [heq]
        intro row hrow
        obtain ⟨r, hr, rfl⟩ := List.mem_map.mp hrow
        obtain ⟨v, hv⟩ := hkept r hr
        exact ⟨v, by rw [rowTurnover_projectRow _ _ hVexist, hv]⟩
      · rw [heq]
        have hsorted := sortDesc_sorted (tickers.filter (fun r => (turnoverNum r).isSome))
        have htop := hsorted.sublist (List.take_sublist n _)
        have htop' : ((sortDesc (tickers.filter
            (fun r => (turnoverNum r).isSome))).take n).Pairwise
            (fun a b => ∃ va vb, turnoverNum a = some va ∧
              turnoverNum b = some vb ∧ vb ≤ va) := by
          refine List.Pairwise.imp_of_mem ?_ htop
          intro a b ha hb hab
          obtain ⟨va, hva⟩ := hkept a ha
          obtain ⟨vb, hvb⟩ := hkept b hb
          refine ⟨va, vb, hva, hvb, ?_⟩
          have hka : tKey a = va := by simp [tKey, hva]
          have hkb : tKey b = vb := by simp [tKey, hvb]
          rw [hka, hkb] at hab
          exact hab
        refine List.Pairwise.map _ ?_ htop'
        intro a b hab
        obtain ⟨va, vb, hva, hvb, hle⟩ := hab
        exact ⟨va, vb, by rw [rowTurnover_projectRow _ _ hVexist, hva],
          by rw [rowTurnover_projectRow _ _ hVexist, hvb], hle⟩
    · have hempty : get_top_n_symbols_by_volume tickers n = ([], []) := by
        simp [get_top_n_symbols_by_volume, hne, hcol]
      refine ⟨fun h => absurd h hne, fun _ => hempty, ?_, ?_, ?_,
        fun _ h => absurd h hcol⟩
      · simp [hempty]
      · simp [hempty]
      · simp [hempty]

/-- Ticker rows exercising the ranking: one non-numeric turnover row. -/
def tickersW : List Dict :=
  [[("symbol", JVal.str "AAA"), ("turnover_usd", JVal.num 5)],
   [("symbol", JVal.str "BBB"), ("turnover_usd", JVal.nonnum)],
   [("symbol", JVal.str "CCC"), ("turnover_usd", JVal.num 9)],
   [("symbol", JVal.str "DDD"), ("turnover_usd", JVal.num 7)]]

theorem C7_witness :
    (get_top_n_symbols_by_volume tickersW 2).2.length ≤ 2 ∧
    (get_top_n_symbols_by_volume tickersW 2).1 =
      desired_cols.filter (fun c => c ∈ dfColumns tickersW) := by
  refine ⟨(C7_top_n_ranking tickersW 2).2.2.1, ?_⟩
  exact (C7_top_n_ranking tickersW 2).2.2.2.2.2 (by decide) (by decide)
